import Mathlib

/-!
# Watch-party room synchronization core — a shallow embedding

This file embeds the Socket.IO server logic of the watch-party
application (the `io.on('connection', ...)` block of the server file with
the fixed disconnect handler): the in-memory `roomState` registry, the
per-connection current room, the adapter's per-room membership sets
(kept here as insertion-ordered duplicate-free lists, matching a JS
`Set`), and the eight inbound events `join`, `become-host`, `set-video`,
`play`, `pause`, `seek`, `chat-message` and `disconnect`.

Each handler returns the successor server state together with the list of
emissions it performs, in order; an emission is the list of recipient
connection ids paired with the emitted event.  `socket.emit` targets the
sender only, `io.to(room).emit` targets the adapter's current member list
of the room, and `socket.broadcast.to(room).emit` targets that list with
the sender removed.  The transport layer is modelled abstractly: on
`disconnect` the departing socket has already left its room, so the
handler sees the remaining members, and `getRoom()` reports the room the
socket was in.
-/

/-- A JavaScript value as it can arrive in a Socket.IO payload: the
handlers store these verbatim, so the embedding keeps the dynamic typing
explicit. -/
inductive JVal where
  | jnull : JVal
  | jstr : String → JVal
  | jnum : ℚ → JVal
  | jbool : Bool → JVal
deriving DecidableEq, Repr

/-- One entry of the server's `roomState` registry: `videoSrc`, `playing`,
`currentTime` and `host`, exactly the four fields the server keeps per
room. -/
structure Room where
  videoSrc : JVal
  playing : Bool
  currentTime : ℚ
  host : String
deriving DecidableEq, Repr

/-- The server state: the `roomState` registry (room name to room entry),
the adapter's membership list per room name (join order, no duplicates in
reachable states), and each connection's current room (`Array.from
(socket.rooms)[1]`, absent when the socket has joined no room). -/
structure ServerState where
  roomState : String → Option Room
  members : String → List String
  connRoom : String → Option String

/-- Pointwise update of a string-keyed map at one key. -/
def upd {β : Type _} (f : String → β) (k : String) (v : β) : String → β :=
  fun x => if x = k then v else f x

/-- The server starts with an empty registry, empty rooms and no joined
connections. -/
def initState : ServerState :=
  { roomState := fun _ => none, members := fun _ => [], connRoom := fun _ => none }

/-- A server-to-client event, with its payload. -/
inductive EvtOut where
  | roomStateMsg : Room → EvtOut
  | newHost : String → EvtOut
  | videoSet : JVal → EvtOut
  | played : ℚ → EvtOut
  | paused : ℚ → EvtOut
  | seeked : ℚ → EvtOut
  | chatMessage : String → String → EvtOut
deriving DecidableEq, Repr

/-- One emission: the connection ids it is delivered to, and the event. -/
abbrev Emit := List String × EvtOut

/-- The `socket.on('join')` handler: leave the current room if any, join
the requested room, create the registry entry with defaults and
`host = socket.id` when absent, send the `room-state` snapshot to the
joiner and broadcast `new-host` to the whole room. -/
def handleJoin (s : ServerState) (c room : String) : ServerState × List Emit :=
  let s1 : ServerState :=
    match s.connRoom c with
    | some currentRoom =>
        { s with members := upd s.members currentRoom ((s.members currentRoom).erase c) }
    | none => s
  let s2 : ServerState :=
    { s1 with
      members := upd s1.members room (s1.members room ++ [c]),
      connRoom := upd s1.connRoom c (some room) }
  match s2.roomState room with
  | some st =>
      (s2, [([c], EvtOut.roomStateMsg st), (s2.members room, EvtOut.newHost st.host)])
  | none =>
      let st : Room := { videoSrc := JVal.jnull, playing := false, currentTime := 0, host := c }
      let s3 : ServerState := { s2 with roomState := upd s2.roomState room (some st) }
      (s3, [([c], EvtOut.roomStateMsg st), (s3.members room, EvtOut.newHost st.host)])

/-- The `socket.on('become-host')` handler: if the sender has a current
room with a registry entry, set `host` to the sender's id and broadcast
`new-host` to the room. -/
def handleBecomeHost (s : ServerState) (c : String) : ServerState × List Emit :=
  match s.connRoom c with
  | none => (s, [])
  | some room =>
      match s.roomState room with
      | none => (s, [])
      | some st =>
          ({ s with roomState := upd s.roomState room (some { st with host := c }) },
           [(s.members room, EvtOut.newHost c)])

/-- The `socket.on('set-video')` handler: guarded on the sender being the
current host of its current room; stores the payload verbatim, pauses and
rewinds, and broadcasts `video-set` to the whole room. -/
def handleSetVideo (s : ServerState) (c : String) (v : JVal) : ServerState × List Emit :=
  match s.connRoom c with
  | none => (s, [])
  | some room =>
      match s.roomState room with
      | none => (s, [])
      | some st =>
          if st.host = c then
            let st2 : Room := { st with videoSrc := v, playing := false, currentTime := 0 }
            ({ s with roomState := upd s.roomState room (some st2) },
             [(s.members room, EvtOut.videoSet v)])
          else (s, [])

/-- The `socket.on('play')` handler: guarded on host; sets
`playing := true` and `currentTime := t`, broadcasts `played` to the room
excluding the sender. -/
def handlePlay (s : ServerState) (c : String) (t : ℚ) : ServerState × List Emit :=
  match s.connRoom c with
  | none => (s, [])
  | some room =>
      match s.roomState room with
      | none => (s, [])
      | some st =>
          if st.host = c then
            let st2 : Room := { st with playing := true, currentTime := t }
            ({ s with roomState := upd s.roomState room (some st2) },
             [((s.members room).erase c, EvtOut.played t)])
          else (s, [])

/-- The `socket.on('pause')` handler: guarded on host; sets
`playing := false` and `currentTime := t`, broadcasts `paused` to the room
excluding the sender. -/
def handlePause (s : ServerState) (c : String) (t : ℚ) : ServerState × List Emit :=
  match s.connRoom c with
  | none => (s, [])
  | some room =>
      match s.roomState room with
      | none => (s, [])
      | some st =>
          if st.host = c then
            let st2 : Room := { st with playing := false, currentTime := t }
            ({ s with roomState := upd s.roomState room (some st2) },
             [((s.members room).erase c, EvtOut.paused t)])
          else (s, [])

/-- The `socket.on('seek')` handler: guarded on host; sets
`currentTime := t` only, broadcasts `seeked` to the room excluding the
sender. -/
def handleSeek (s : ServerState) (c : String) (t : ℚ) : ServerState × List Emit :=
  match s.connRoom c with
  | none => (s, [])
  | some room =>
      match s.roomState room with
      | none => (s, [])
      | some st =>
          if st.host = c then
            let st2 : Room := { st with currentTime := t }
            ({ s with roomState := upd s.roomState room (some st2) },
             [((s.members room).erase c, EvtOut.seeked t)])
          else (s, [])

/-- The `socket.on('chat-message')` handler: no registry check and no
host guard, broadcasts `{id, message}` to the whole room including the
sender. -/
def handleChat (s : ServerState) (c : String) (message : String) : ServerState × List Emit :=
  match s.connRoom c with
  | none => (s, [])
  | some room => (s, [(s.members room, EvtOut.chatMessage c message)])

/-- The fixed `socket.on('disconnect')` handler.  The transport removes
the departing socket from its room first; then, if the room has a
registry entry and the departing socket was its host, either promote the
first remaining member (`Array.from(clients)[0]`), reset the room to
`videoSrc = null, playing = false, currentTime = 0`, and emit `new-host`
then `video-set(null)` to the remaining members — or, with nobody left,
delete the registry entry. -/
def handleDisconnect (s : ServerState) (c : String) : ServerState × List Emit :=
  match s.connRoom c with
  | none => (s, [])
  | some room =>
      let s1 : ServerState :=
        { s with
          members := upd s.members room ((s.members room).erase c),
          connRoom := upd s.connRoom c none }
      match s1.roomState room with
      | none => (s1, [])
      | some st =>
          if st.host = c then
            match s1.members room with
            | [] =>
                ({ s1 with roomState := upd s1.roomState room none }, [])
            | newHostId :: rest =>
                let st2 : Room :=
                  { videoSrc := JVal.jnull, playing := false, currentTime := 0,
                    host := newHostId }
                ({ s1 with roomState := upd s1.roomState room (some st2) },
                 [(newHostId :: rest, EvtOut.newHost newHostId),
                  (newHostId :: rest, EvtOut.videoSet JVal.jnull)])
          else (s1, [])

/-- An inbound event, tagged with the sender's connection id. -/
inductive Event where
  | join : String → String → Event
  | becomeHost : String → Event
  | setVideo : String → JVal → Event
  | play : String → ℚ → Event
  | pause : String → ℚ → Event
  | seek : String → ℚ → Event
  | chat : String → String → Event
  | disconnect : String → Event

/-- Dispatch one inbound event to its handler. -/
def step (s : ServerState) : Event → ServerState × List Emit
  | Event.join c room => handleJoin s c room
  | Event.becomeHost c => handleBecomeHost s c
  | Event.setVideo c v => handleSetVideo s c v
  | Event.play c t => handlePlay s c t
  | Event.pause c t => handlePause s c t
  | Event.seek c t => handleSeek s c t
  | Event.chat c m => handleChat s c m
  | Event.disconnect c => handleDisconnect s c

/-- Run a list of events from a given state, keeping only the state. -/
def runTrace : ServerState → List Event → ServerState
  | s, [] => s
  | s, e :: es => runTrace (step s e).1 es

/-- The state reached from the initial server state by a trace. -/
def run (es : List Event) : ServerState := runTrace initState es

/-- The host guard of the four transport commands, as the server checks
it: the sender has a current room, the room has a registry entry, and the
entry's `host` is the sender. -/
def hostGuard (s : ServerState) (c : String) : Bool :=
  match s.connRoom c with
  | none => false
  | some room =>
      match s.roomState room with
      | none => false
      | some st => st.host == c

/-- A join is switch-free when its sender is room-less or already in the
target room (so the implicit leave never abandons a third room). -/
def joinOk (s : ServerState) : Event → Bool
  | Event.join c room =>
      match s.connRoom c with
      | none => true
      | some r => r == room
  | _ => true

/-- A trace is switch-free when every join in it is switch-free in the
state where it fires. -/
def traceOk : ServerState → List Event → Bool
  | _, [] => true
  | s, e :: es => joinOk s e && traceOk (step s e).1 es

/-- A connection's current room is exactly the room whose member list
holds it. -/
def MembershipConsistent (s : ServerState) : Prop :=
  ∀ c r, s.connRoom c = some r ↔ c ∈ s.members r

/-- Member lists are duplicate-free, as the adapter's JS `Set`s are. -/
def MembersNodup (s : ServerState) : Prop :=
  ∀ r, (s.members r).Nodup

/-- The registry-side invariant: every registered room's host is one of
its members, and a room is registered exactly when its member list is
non-empty. -/
def RegInv (s : ServerState) : Prop :=
  ∀ room, (∀ st, s.roomState room = some st → st.host ∈ s.members room) ∧
    ((s.roomState room).isSome ↔ s.members room ≠ [])

/-- The conjunction of the three structural invariants. -/
def FullInv (s : ServerState) : Prop :=
  RegInv s ∧ MembershipConsistent s ∧ MembersNodup s

/-- The registry/host invariant in the spec's own terms: every registered
room's `hostId` is the id of a connection whose current room is that
room, and a room is registered iff some connection's current room equals
its name. -/
def HostInvariant (s : ServerState) : Prop :=
  ∀ room : String,
    (∀ st, s.roomState room = some st → s.connRoom st.host = some room) ∧
    ((s.roomState room).isSome ↔ ∃ c, s.connRoom c = some room)

theorem upd_same {β : Type _} (f : String → β) (k : String) (v : β) :
    upd f k v k = v := by
  simp [upd]

theorem upd_ne {β : Type _} (f : String → β) (k : String) (v : β) {x : String}
    (h : x ≠ k) : upd f k v x = f x := by
  simp [upd, h]

theorem not_mem_of_connRoom_ne {s : ServerState} (hcons : MembershipConsistent s)
    {c r : String} (h : s.connRoom c ≠ some r) : c ∉ s.members r :=
  fun hm => h ((hcons c r).2 hm)

theorem nodup_append_one {l : List String} {c : String} (hl : l.Nodup) (hc : c ∉ l) :
    (l ++ [c]).Nodup := by
  simp [List.nodup_append, hl, hc]

/-- A host-guarded command that only rewrites the registry entry of the
sender's room, keeping the members and connection maps, preserves the
three structural invariants as long as the new entry's host is a member
of that room. -/
theorem fullInv_update_room {s : ServerState} {room : String} {st2 : Room}
    (h : FullInv s) (hh : st2.host ∈ s.members room) :
    FullInv { s with roomState := upd s.roomState room (some st2) } := by
  obtain ⟨hreg, hcons, hnd⟩ := h
  refine ⟨?_, hcons, hnd⟩
  intro room'
  dsimp only
  by_cases hr : room' = room
  · subst hr
    rw [upd_same]
    refine ⟨fun st hst => ?_, ?_⟩
    · cases hst
      exact hh
    · simp only [Option.isSome_some, true_iff]
      exact List.ne_nil_of_mem hh
  · rw [upd_ne _ _ _ hr]
    exact hreg room'

theorem upd_upd_same {β : Type _} (f : String → β) (k : String) (a b : β) :
    upd (upd f k a) k b = upd f k b :=
  funext fun x => by by_cases hx : x = k <;> simp [upd, hx]

/-- Consistency of the connection map after a join: the joiner's entry
now points at the target room, whose member list becomes `L ++ [c]`. -/
theorem memcons_add {s : ServerState} (hcons : MembershipConsistent s)
    {c room : String} {L : List String}
    (hcL : c ∉ L)
    (hL : ∀ x, x ≠ c → (x ∈ L ↔ x ∈ s.members room))
    (hcr : ∀ r, r ≠ room → c ∉ s.members r) :
    ∀ x r, upd s.connRoom c (some room) x = some r ↔
      x ∈ upd s.members room (L ++ [c]) r := by
  intro x r
  by_cases hx : x = c
  · subst hx
    rw [upd_same]
    by_cases hrr : r = room
    · subst hrr
      rw [upd_same]
      simp
    · rw [upd_ne _ _ _ hrr]
      simp only [Option.some.injEq]
      exact ⟨fun hh => absurd hh.symm hrr, fun hh => absurd hh (hcr r hrr)⟩
  · rw [upd_ne _ _ _ hx]
    by_cases hrr : r = room
    · subst hrr
      rw [upd_same, List.mem_append, List.mem_singleton, hL x hx]
      constructor
      · intro hh
        exact Or.inl ((hcons x r).mp hh)
      · rintro (hh | hh)
        · exact (hcons x r).mpr hh
        · exact absurd hh hx
    · rw [upd_ne _ _ _ hrr]
      exact hcons x r

/-- Member lists stay duplicate-free after a join. -/
theorem nodup_add {s : ServerState} (hnd : MembersNodup s)
    {room c : String} {L : List String} (hLnd : L.Nodup) (hcL : c ∉ L) :
    ∀ r, (upd s.members room (L ++ [c]) r).Nodup := by
  intro r
  by_cases hrr : r = room
  · subst hrr
    rw [upd_same]
    exact nodup_append_one hLnd hcL
  · rw [upd_ne _ _ _ hrr]
    exact hnd r

/-- Registry-side invariant after a join into a room that was already
registered: the registry is untouched and the target room's member list
becomes `L ++ [c]`. -/
theorem regInv_add_existing {s : ServerState} (hreg : RegInv s)
    {room c : String} {L : List String}
    (hL : ∀ x, x ≠ c → (x ∈ L ↔ x ∈ s.members room))
    (hsome : (s.roomState room).isSome) :
    ∀ room', (∀ st, s.roomState room' = some st →
        st.host ∈ upd s.members room (L ++ [c]) room') ∧
      ((s.roomState room').isSome ↔ upd s.members room (L ++ [c]) room' ≠ []) := by
  intro room'
  by_cases hrr : room' = room
  · subst hrr
    rw [upd_same]
    constructor
    · intro st hst
      by_cases hhc : st.host = c
      · rw [hhc]
        simp
      · have hm : st.host ∈ s.members room' := (hreg room').1 st hst
        rw [List.mem_append]
        exact Or.inl ((hL st.host hhc).mpr hm)
    · simp [hsome]
  · rw [upd_ne _ _ _ hrr]
    exact hreg room'

/-- Registry-side invariant after a join that created the room: the fresh
entry's host is the joiner, who closes the member list. -/
theorem regInv_add_fresh {s : ServerState} (hreg : RegInv s)
    {room c : String} {L : List String} {stN : Room}
    (hhost : stN.host = c) :
    ∀ room', (∀ st, upd s.roomState room (some stN) room' = some st →
        st.host ∈ upd s.members room (L ++ [c]) room') ∧
      ((upd s.roomState room (some stN) room').isSome ↔
        upd s.members room (L ++ [c]) room' ≠ []) := by
  intro room'
  by_cases hrr : room' = room
  · subst hrr
    rw [upd_same, upd_same]
    refine ⟨fun st hst => ?_, ?_⟩
    · cases hst
      rw [hhost]
      simp
    · simp
  · rw [upd_ne _ _ _ hrr, upd_ne _ _ _ hrr]
    exact hreg room'

/-- A switch-free `join` preserves the three structural invariants. -/
theorem fullInv_handleJoin {s : ServerState} {c room : String}
    (h : FullInv s) (hok : joinOk s (Event.join c room) = true) :
    FullInv (handleJoin s c room).1 := by
  obtain ⟨hreg, hcons, hnd⟩ := h
  cases hc : s.connRoom c with
  | none =>
      have hcm : ∀ r, c ∉ s.members r := fun r hm => by
        have h2 := (hcons c r).mpr hm
        rw [hc] at h2
        exact Option.noConfusion h2
      cases hr : s.roomState room with
      | some st =>
          simp only [handleJoin, hc, hr]
          exact ⟨regInv_add_existing hreg (fun x _ => Iff.rfl) (by rw [hr]; rfl),
            memcons_add hcons (hcm room) (fun x _ => Iff.rfl) (fun r _ => hcm r),
            nodup_add hnd (hnd room) (hcm room)⟩
      | none =>
          simp only [handleJoin, hc, hr]
          exact ⟨regInv_add_fresh hreg rfl,
            memcons_add hcons (hcm room) (fun x _ => Iff.rfl) (fun r _ => hcm r),
            nodup_add hnd (hnd room) (hcm room)⟩
  | some cur =>
      have hcur : cur = room := by
        simp only [joinOk, hc, beq_iff_eq] at hok
        exact hok
      subst hcur
      have hmem : c ∈ s.members cur := (hcons c cur).mp hc
      have hcL : c ∉ (s.members cur).erase c := by
        intro hin
        exact (((hnd cur).mem_erase_iff).mp hin).1 rfl
      have hL : ∀ x, x ≠ c → (x ∈ (s.members cur).erase c ↔ x ∈ s.members cur) :=
        fun x hx => List.mem_erase_of_ne hx
      have hcr : ∀ r, r ≠ cur → c ∉ s.members r := fun r hrne hm => by
        have h2 := (hcons c r).mpr hm
        rw [hc] at h2
        exact hrne (Option.some.inj h2).symm
      cases hr : s.roomState cur with
      | some st =>
          simp only [handleJoin, hc, hr, upd_same, upd_upd_same]
          exact ⟨regInv_add_existing hreg hL (by rw [hr]; rfl),
            memcons_add hcons hcL hL hcr,
            nodup_add hnd ((hnd cur).erase c) hcL⟩
      | none =>
          simp only [handleJoin, hc, hr, upd_same, upd_upd_same]
          exact ⟨regInv_add_fresh hreg rfl,
            memcons_add hcons hcL hL hcr,
            nodup_add hnd ((hnd cur).erase c) hcL⟩

/-- `become-host` preserves the structural invariants. -/
theorem fullInv_handleBecomeHost {s : ServerState} {c : String} (h : FullInv s) :
    FullInv (handleBecomeHost s c).1 := by
  obtain ⟨hreg, hcons, hnd⟩ := h
  cases hc : s.connRoom c with
  | none =>
      simp only [handleBecomeHost, hc]
      exact ⟨hreg, hcons, hnd⟩
  | some room =>
      cases hr : s.roomState room with
      | none =>
          simp only [handleBecomeHost, hc, hr]
          exact ⟨hreg, hcons, hnd⟩
      | some st =>
          simp only [handleBecomeHost, hc, hr]
          exact fullInv_update_room ⟨hreg, hcons, hnd⟩ ((hcons c room).mp hc)

/-- `set-video` preserves the structural invariants. -/
theorem fullInv_handleSetVideo {s : ServerState} {c : String} {v : JVal}
    (h : FullInv s) : FullInv (handleSetVideo s c v).1 := by
  obtain ⟨hreg, hcons, hnd⟩ := h
  cases hc : s.connRoom c with
  | none =>
      simp only [handleSetVideo, hc]
      exact ⟨hreg, hcons, hnd⟩
  | some room =>
      cases hr : s.roomState room with
      | none =>
          simp only [handleSetVideo, hc, hr]
          exact ⟨hreg, hcons, hnd⟩
      | some st =>
          by_cases hhost : st.host = c
          · simp only [handleSetVideo, hc, hr, hhost, if_pos]
            exact fullInv_update_room ⟨hreg, hcons, hnd⟩ ((hcons c room).mp hc)
          · simp only [handleSetVideo, hc, hr, hhost, if_neg, not_false_iff]
            exact ⟨hreg, hcons, hnd⟩

/-- `play` preserves the structural invariants. -/
theorem fullInv_handlePlay {s : ServerState} {c : String} {t : ℚ}
    (h : FullInv s) : FullInv (handlePlay s c t).1 := by
  obtain ⟨hreg, hcons, hnd⟩ := h
  cases hc : s.connRoom c with
  | none =>
      simp only [handlePlay, hc]
      exact ⟨hreg, hcons, hnd⟩
  | some room =>
      cases hr : s.roomState room with
      | none =>
          simp only [handlePlay, hc, hr]
          exact ⟨hreg, hcons, hnd⟩
      | some st =>
          by_cases hhost : st.host = c
          · simp only [handlePlay, hc, hr, hhost, if_pos]
            exact fullInv_update_room ⟨hreg, hcons, hnd⟩ ((hcons c room).mp hc)
          · simp only [handlePlay, hc, hr, hhost, if_neg, not_false_iff]
            exact ⟨hreg, hcons, hnd⟩

/-- `pause` preserves the structural invariants. -/
theorem fullInv_handlePause {s : ServerState} {c : String} {t : ℚ}
    (h : FullInv s) : FullInv (handlePause s c t).1 := by
  obtain ⟨hreg, hcons, hnd⟩ := h
  cases hc : s.connRoom c with
  | none =>
      simp only [handlePause, hc]
      exact ⟨hreg, hcons, hnd⟩
  | some room =>
      cases hr : s.roomState room with
      | none =>
          simp only [handlePause, hc, hr]
          exact ⟨hreg, hcons, hnd⟩
      | some st =>
          by_cases hhost : st.host = c
          · simp only [handlePause, hc, hr, hhost, if_pos]
            exact fullInv_update_room ⟨hreg, hcons, hnd⟩ ((hcons c room).mp hc)
          · simp only [handlePause, hc, hr, hhost, if_neg, not_false_iff]
            exact ⟨hreg, hcons, hnd⟩

/-- `seek` preserves the structural invariants. -/
theorem fullInv_handleSeek {s : ServerState} {c : String} {t : ℚ}
    (h : FullInv s) : FullInv (handleSeek s c t).1 := by
  obtain ⟨hreg, hcons, hnd⟩ := h
  cases hc : s.connRoom c with
  | none =>
      simp only [handleSeek, hc]
      exact ⟨hreg, hcons, hnd⟩
  | some room =>
      cases hr : s.roomState room with
      | none =>
          simp only [handleSeek, hc, hr]
          exact ⟨hreg, hcons, hnd⟩
      | some st =>
          by_cases hhost : st.host = c
          · simp only [handleSeek, hc, hr, hhost, if_pos]
            exact fullInv_update_room ⟨hreg, hcons, hnd⟩ ((hcons c room).mp hc)
          · simp only [handleSeek, hc, hr, hhost, if_neg, not_false_iff]
            exact ⟨hreg, hcons, hnd⟩

/-- `chat-message` preserves the structural invariants (it never mutates
the state). -/
theorem fullInv_handleChat {s : ServerState} {c m : String}
    (h : FullInv s) : FullInv (handleChat s c m).1 := by
  cases hc : s.connRoom c with
  | none =>
      simp only [handleChat, hc]
      exact h
  | some room =>
      simp only [handleChat, hc]
      exact h

/-- Consistency of the connection map after a disconnect: the departing
connection's entry clears and it is erased from its room's member list. -/
theorem memcons_remove {s : ServerState} (hcons : MembershipConsistent s)
    (hnd : MembersNodup s) {c room : String} (hc : s.connRoom c = some room) :
    ∀ x r, upd s.connRoom c none x = some r ↔
      x ∈ upd s.members room ((s.members room).erase c) r := by
  intro x r
  by_cases hx : x = c
  · subst hx
    rw [upd_same]
    constructor
    · intro hh
      exact Option.noConfusion hh
    · intro hm
      exfalso
      by_cases hrr : r = room
      · subst hrr
        rw [upd_same] at hm
        exact (((hnd r).mem_erase_iff).mp hm).1 rfl
      · rw [upd_ne _ _ _ hrr] at hm
        have h2 := (hcons x r).mpr hm
        rw [hc] at h2
        exact hrr (Option.some.inj h2).symm
  · rw [upd_ne _ _ _ hx]
    by_cases hrr : r = room
    · subst hrr
      rw [upd_same, List.mem_erase_of_ne hx]
      exact hcons x r
    · rw [upd_ne _ _ _ hrr]
      exact hcons x r

/-- Member lists stay duplicate-free after a disconnect. -/
theorem nodup_remove {s : ServerState} (hnd : MembersNodup s)
    (room c : String) :
    ∀ r, (upd s.members room ((s.members room).erase c) r).Nodup := by
  intro r
  by_cases hrr : r = room
  · subst hrr
    rw [upd_same]
    exact (hnd r).erase c
  · rw [upd_ne _ _ _ hrr]
    exact hnd r

/-- `disconnect` preserves the three structural invariants. -/
theorem fullInv_handleDisconnect {s : ServerState} {c : String}
    (h : FullInv s) : FullInv (handleDisconnect s c).1 := by
  obtain ⟨hreg, hcons, hnd⟩ := h
  cases hc : s.connRoom c with
  | none =>
      simp only [handleDisconnect, hc]
      exact ⟨hreg, hcons, hnd⟩
  | some room =>
      have hmemc : c ∈ s.members room := (hcons c room).mp hc
      cases hr : s.roomState room with
      | none =>
          have hempty : s.members room = [] := by
            by_contra hne
            have h2 := ((hreg room).2).mpr hne
            rw [hr] at h2
            simp at h2
          rw [hempty] at hmemc
          exact absurd hmemc (List.not_mem_nil c)
      | some st =>
          by_cases hhost : st.host = c
          · cases he : (s.members room).erase c with
            | nil =>
                simp only [handleDisconnect, hc, hr, upd_same, he, hhost, if_pos]
                refine ⟨?_, ?_, ?_⟩
                · intro room'
                  dsimp only
                  by_cases hrr : room' = room
                  · subst hrr
                    rw [upd_same, upd_same]
                    exact ⟨fun st' hst' => Option.noConfusion hst', by simp⟩
                  · rw [upd_ne _ _ _ hrr, upd_ne _ _ _ hrr]
                    exact hreg room'
                · have hcr := memcons_remove hcons hnd hc
                  rw [he] at hcr
                  exact hcr
                · have hnr := nodup_remove hnd room c
                  rw [he] at hnr
                  exact hnr
            | cons m rest =>
                simp only [handleDisconnect, hc, hr, upd_same, he, hhost, if_pos]
                refine ⟨?_, ?_, ?_⟩
                · intro room'
                  dsimp only
                  by_cases hrr : room' = room
                  · subst hrr
                    rw [upd_same, upd_same]
                    refine ⟨fun st' hst' => ?_, by simp⟩
                    cases hst'
                    exact List.mem_cons_self m rest
                  · rw [upd_ne _ _ _ hrr, upd_ne _ _ _ hrr]
                    exact hreg room'
                · have hcr := memcons_remove hcons hnd hc
                  rw [he] at hcr
                  exact hcr
                · have hnr := nodup_remove hnd room c
                  rw [he] at hnr
                  exact hnr
          · simp only [handleDisconnect, hc, hr, upd_same, hhost, if_neg, not_false_iff]
            refine ⟨?_, memcons_remove hcons hnd hc, nodup_remove hnd room c⟩
            intro room'
            dsimp only
            by_cases hrr : room' = room
            · subst hrr
              rw [upd_same]
              refine ⟨fun st' hst' => ?_, ?_⟩
              · rw [hr] at hst'
                cases hst'
                exact (List.mem_erase_of_ne hhost).mpr ((hreg room').1 st hr)
              · rw [hr]
                have hin : st.host ∈ (s.members room').erase c :=
                  (List.mem_erase_of_ne hhost).mpr ((hreg room').1 st hr)
                simp only [Option.isSome_some, true_iff]
                exact List.ne_nil_of_mem hin
            · rw [upd_ne _ _ _ hrr]
              exact hreg room'

/-- One switch-free step preserves the structural invariants. -/
theorem fullInv_step {s : ServerState} {e : Event}
    (h : FullInv s) (hok : joinOk s e = true) : FullInv (step s e).1 := by
  cases e with
  | join c room => exact fullInv_handleJoin h hok
  | becomeHost c => exact fullInv_handleBecomeHost h
  | setVideo c v => exact fullInv_handleSetVideo h
  | play c t => exact fullInv_handlePlay h
  | pause c t => exact fullInv_handlePause h
  | seek c t => exact fullInv_handleSeek h
  | chat c m => exact fullInv_handleChat h
  | disconnect c => exact fullInv_handleDisconnect h

/-- A switch-free trace preserves the structural invariants. -/
theorem fullInv_runTrace :
    ∀ (es : List Event) (s : ServerState), FullInv s → traceOk s es = true →
      FullInv (runTrace s es)
  | [], _, h, _ => h
  | e :: es, s, h, hok => by
      rw [traceOk, Bool.and_eq_true] at hok
      exact fullInv_runTrace es (step s e).1 (fullInv_step h hok.1) hok.2

/-- The initial server state satisfies the structural invariants. -/
theorem fullInv_initState : FullInv initState := by
  refine ⟨fun room => ⟨fun st hst => Option.noConfusion hst, by simp [initState]⟩,
    fun c r => ?_, fun r => ?_⟩
  · simp [initState]
  · simp [initState]

/-- The spec-level registry/host invariant follows from the structural
ones. -/
theorem hostInvariant_of_fullInv {s : ServerState} (h : FullInv s) :
    HostInvariant s := by
  obtain ⟨hreg, hcons, hnd⟩ := h
  intro room
  constructor
  · intro st hst
    exact (hcons st.host room).mpr ((hreg room).1 st hst)
  · rw [(hreg room).2]
    constructor
    · intro hne
      rcases List.exists_mem_of_ne_nil _ hne with ⟨x, hx⟩
      exact ⟨x, (hcons x room).mpr hx⟩
    · rintro ⟨x, hx⟩
      exact List.ne_nil_of_mem ((hcons x room).mp hx)

/-- A two-member demonstration room: "H" joins "movie" and becomes host,
then "F" joins as a follower. -/
def demoTrace : List Event := [Event.join "H" "movie", Event.join "F" "movie"]

/-- The server state reached by `demoTrace`. -/
def demoState : ServerState := run demoTrace

/-- C1 (amended): after any sequence of join, become-host, set-video,
play, pause, seek, chat-message and disconnect events in which every join
is issued by a connection that is room-less or already in the target room,
every room present in the registry has a `hostId` equal to the id of a
connection currently joined to that room, and a room name is present in
the registry iff at least one connection's current room equals that
name.  (The unrestricted claim fails: a join that switches rooms leaves
the abandoned room registered with no members, see the counterexample.) -/
theorem c1_host_invariant_switch_free (es : List Event)
    (h : traceOk initState es = true) : HostInvariant (run es) :=
  hostInvariant_of_fullInv (fullInv_runTrace es initState fullInv_initState h)

/-- C1 witness: the switch-free trace join H, join F, disconnect H
satisfies the trace condition and the reached state satisfies the
invariant. -/
theorem c1_host_invariant_switch_free_witness :
    traceOk initState [Event.join "H" "movie", Event.join "F" "movie",
      Event.disconnect "H"] = true ∧
    HostInvariant (run [Event.join "H" "movie", Event.join "F" "movie",
      Event.disconnect "H"]) :=
  ⟨by decide, c1_host_invariant_switch_free _ (by decide)⟩

/-- C1 counterexample: after the event sequence join("A","a"),
join("A","b") — both events the claim quantifies over — room "a" is still
present in the registry with `hostId = "A"`, yet its member list is empty
and no connection's current room is "a" ("A" is in "b", every other
connection is nowhere), refuting both halves of the claimed invariant. -/
theorem c1_host_invariant_counterexample :
    (run [Event.join "A" "a", Event.join "A" "b"]).roomState "a" =
      some { videoSrc := JVal.jnull, playing := false, currentTime := 0, host := "A" } ∧
    (run [Event.join "A" "a", Event.join "A" "b"]).members "a" = [] ∧
    (run [Event.join "A" "a", Event.join "A" "b"]).connRoom "A" = some "b" ∧
    (run [Event.join "A" "a", Event.join "A" "b"]).connRoom =
      upd (upd (fun _ => none) "A" (some "a")) "A" (some "b") ∧
    upd (upd (fun _ : String => (none : Option String)) "A" (some "a")) "A" (some "b") =
      fun x => if x = "A" then some "b" else none := by
  refine ⟨by decide, by decide, by decide, rfl, ?_⟩
  rw [upd_upd_same]
  rfl

/-- C2: fail-silent guard with atomicity — when the sender has no current
room, or its room has no registry entry, or it is not that room's host,
each of set-video, play, pause and seek leaves the entire server state
unchanged and emits nothing. -/
theorem c2_guard_noop (s : ServerState) (c : String) (v : JVal) (t : ℚ)
    (h : hostGuard s c = false) :
    step s (Event.setVideo c v) = (s, []) ∧ step s (Event.play c t) = (s, []) ∧
    step s (Event.pause c t) = (s, []) ∧ step s (Event.seek c t) = (s, []) := by
  cases hc : s.connRoom c with
  | none =>
      simp [step, handleSetVideo, handlePlay, handlePause, handleSeek, hc]
  | some room =>
      cases hr : s.roomState room with
      | none =>
          simp [step, handleSetVideo, handlePlay, handlePause, handleSeek, hc, hr]
      | some st =>
          have hne : ¬st.host = c := by
            simp only [hostGuard, hc, hr] at h
            exact beq_eq_false_iff_ne.mp h
          simp [step, handleSetVideo, handlePlay, handlePause, handleSeek, hc, hr, hne]

/-- C2 witness: in the demonstration room the follower "F" fails the host
guard, and all four guarded commands are no-ops from that state. -/
theorem c2_guard_noop_witness :
    hostGuard demoState "F" = false ∧
    (step demoState (Event.setVideo "F" (JVal.jstr "x")) = (demoState, []) ∧
     step demoState (Event.play "F" 20) = (demoState, []) ∧
     step demoState (Event.pause "F" 20) = (demoState, []) ∧
     step demoState (Event.seek "F" 20) = (demoState, [])) :=
  ⟨by decide, c2_guard_noop demoState "F" (JVal.jstr "x") 20 (by decide)⟩

/-- C3: host failover with conservative reset — when the host of a room
disconnects and `m :: rest` members remain, the handler promotes exactly
the first remaining member `m` (a remaining member distinct from the
leaver), resets the room to `videoRef = null, playing = false,
positionSeconds = 0`, and emits `new-host(m)` then `video-set(null)`,
in that order, to the remaining members. -/
theorem c3_host_failover (s : ServerState) (c room : String) (st : Room)
    (m : String) (rest : List String)
    (h1 : s.connRoom c = some room) (h2 : s.roomState room = some st)
    (h3 : st.host = c) (h4 : (s.members room).erase c = m :: rest)
    (hnd : (s.members room).Nodup) :
    step s (Event.disconnect c) =
      ({ s with
          roomState := upd s.roomState room
            (some { videoSrc := JVal.jnull, playing := false, currentTime := 0, host := m }),
          members := upd s.members room (m :: rest),
          connRoom := upd s.connRoom c none },
       [(m :: rest, EvtOut.newHost m), (m :: rest, EvtOut.videoSet JVal.jnull)]) ∧
    m ∈ s.members room ∧ m ≠ c := by
  have hmem : m ∈ (s.members room).erase c := by
    rw [h4]
    exact List.mem_cons_self m rest
  refine ⟨?_, List.mem_of_mem_erase hmem, (hnd.mem_erase_iff.mp hmem).1⟩
  simp only [step, handleDisconnect, h1, h2, upd_same, h4, h3, if_pos]

/-- C3 witness: in the demonstration room, host "H" disconnecting
promotes "F", resets the room, and emits new-host then video-set(null) to
["F"]. -/
theorem c3_host_failover_witness :
    ((run demoTrace).connRoom "H" = some "movie" ∧
     (run demoTrace).roomState "movie" =
       some { videoSrc := JVal.jnull, playing := false, currentTime := 0, host := "H" } ∧
     ((run demoTrace).members "movie").erase "H" = ["F"] ∧
     ((run demoTrace).members "movie").Nodup) ∧
    (step (run demoTrace) (Event.disconnect "H") =
      ({ run demoTrace with
          roomState := upd (run demoTrace).roomState "movie"
            (some { videoSrc := JVal.jnull, playing := false, currentTime := 0, host := "F" }),
          members := upd (run demoTrace).members "movie" ["F"],
          connRoom := upd (run demoTrace).connRoom "H" none },
       [(["F"], EvtOut.newHost "F"), (["F"], EvtOut.videoSet JVal.jnull)]) ∧
     "F" ∈ (run demoTrace).members "movie" ∧ "F" ≠ "H") :=
  ⟨⟨by decide, by decide, by decide, by decide⟩,
   c3_host_failover (run demoTrace) "H" "movie"
     { videoSrc := JVal.jnull, playing := false, currentTime := 0, host := "H" }
     "F" [] (by decide) (by decide) (by decide) (by decide) (by decide)⟩

/-- C4: set-video postcondition and fan-out — when the sender is the
current host of its room, set-video(v) rewrites exactly that room's entry
to `videoRef = v, playing = false, positionSeconds = 0`, emits
`video-set(v)` to the full member list of the room (which contains the
sender), and leaves every other room's entry unchanged. -/
theorem c4_set_video (s : ServerState) (c room : String) (st : Room) (v : JVal)
    (h1 : s.connRoom c = some room) (h2 : s.roomState room = some st)
    (h3 : st.host = c) (hmem : c ∈ s.members room) :
    step s (Event.setVideo c v) =
      ({ s with
          roomState := upd s.roomState room
            (some { st with videoSrc := v, playing := false, currentTime := 0 }) },
       [(s.members room, EvtOut.videoSet v)]) ∧
    c ∈ s.members room ∧
    (∀ r, r ≠ room → (step s (Event.setVideo c v)).1.roomState r = s.roomState r) := by
  have hstep : step s (Event.setVideo c v) =
      ({ s with
          roomState := upd s.roomState room
            (some { st with videoSrc := v, playing := false, currentTime := 0 }) },
       [(s.members room, EvtOut.videoSet v)]) := by
    simp only [step, handleSetVideo, h1, h2, h3, if_pos]
  refine ⟨hstep, hmem, fun r hr => ?_⟩
  rw [hstep]
  exact upd_ne _ _ _ hr

/-- C4 witness: host "H" of the demonstration room sets
video "path/a.mp4"; the room is rewritten to that source, paused at 0,
and `video-set` goes to ["H", "F"]. -/
theorem c4_set_video_witness :
    ((run demoTrace).connRoom "H" = some "movie" ∧
     "H" ∈ (run demoTrace).members "movie") ∧
    (step (run demoTrace) (Event.setVideo "H" (JVal.jstr "path/a.mp4")) =
      ({ run demoTrace with
          roomState := upd (run demoTrace).roomState "movie"
            (some { videoSrc := JVal.jstr "path/a.mp4", playing := false,
                    currentTime := 0, host := "H" }) },
       [((run demoTrace).members "movie", EvtOut.videoSet (JVal.jstr "path/a.mp4"))]) ∧
     "H" ∈ (run demoTrace).members "movie" ∧
     (∀ r, r ≠ "movie" →
       (step (run demoTrace) (Event.setVideo "H" (JVal.jstr "path/a.mp4"))).1.roomState r =
         (run demoTrace).roomState r)) :=
  ⟨⟨by decide, by decide⟩,
   c4_set_video (run demoTrace) "H" "movie"
     { videoSrc := JVal.jnull, playing := false, currentTime := 0, host := "H" }
     (JVal.jstr "path/a.mp4") (by decide) (by decide) (by decide) (by decide)⟩

/-- C5: play/pause/seek postconditions and sender exclusion — when the
sender is the current host of its room, play(t) sets `playing = true` and
`positionSeconds = t` and emits `played(t)`, pause(t) sets
`playing = false` and `positionSeconds = t` and emits `paused(t)`, and
seek(t) sets `positionSeconds = t` leaving `playing` unchanged and emits
`seeked(t)`; each emission goes to the room's member list with the sender
removed, which holds exactly the members other than the sender. -/
theorem c5_transport_commands (s : ServerState) (c room : String) (st : Room) (t : ℚ)
    (h1 : s.connRoom c = some room) (h2 : s.roomState room = some st)
    (h3 : st.host = c) (hnd : (s.members room).Nodup) :
    step s (Event.play c t) =
      ({ s with
          roomState := upd s.roomState room
            (some { st with playing := true, currentTime := t }) },
       [((s.members room).erase c, EvtOut.played t)]) ∧
    step s (Event.pause c t) =
      ({ s with
          roomState := upd s.roomState room
            (some { st with playing := false, currentTime := t }) },
       [((s.members room).erase c, EvtOut.paused t)]) ∧
    step s (Event.seek c t) =
      ({ s with
          roomState := upd s.roomState room
            (some { st with currentTime := t }) },
       [((s.members room).erase c, EvtOut.seeked t)]) ∧
    (∀ x, x ∈ (s.members room).erase c ↔ (x ∈ s.members room ∧ x ≠ c)) := by
  refine ⟨?_, ?_, ?_, fun x => ?_⟩
  · simp only [step, handlePlay, h1, h2, h3, if_pos]
  · simp only [step, handlePause, h1, h2, h3, if_pos]
  · simp only [step, handleSeek, h1, h2, h3, if_pos]
  · rw [hnd.mem_erase_iff]
    exact ⟨fun hh => ⟨hh.2, hh.1⟩, fun hh => ⟨hh.2, hh.1⟩⟩

/-- C5 witness: host "H" plays at 12.5 seconds; the room runs at 12.5 and
only ["F"] receives `played(12.5)`, and likewise for pause and seek. -/
theorem c5_transport_commands_witness :
    ((run demoTrace).connRoom "H" = some "movie" ∧
     ((run demoTrace).members "movie").Nodup) ∧
    (step (run demoTrace) (Event.play "H" (25 / 2)) =
      ({ run demoTrace with
          roomState := upd (run demoTrace).roomState "movie"
            (some { videoSrc := JVal.jnull, playing := true,
                    currentTime := 25 / 2, host := "H" }) },
       [(((run demoTrace).members "movie").erase "H", EvtOut.played (25 / 2))]) ∧
     step (run demoTrace) (Event.pause "H" (25 / 2)) =
      ({ run demoTrace with
          roomState := upd (run demoTrace).roomState "movie"
            (some { videoSrc := JVal.jnull, playing := false,
                    currentTime := 25 / 2, host := "H" }) },
       [(((run demoTrace).members "movie").erase "H", EvtOut.paused (25 / 2))]) ∧
     step (run demoTrace) (Event.seek "H" (25 / 2)) =
      ({ run demoTrace with
          roomState := upd (run demoTrace).roomState "movie"
            (some { videoSrc := JVal.jnull, playing := false,
                    currentTime := 25 / 2, host := "H" }) },
       [(((run demoTrace).members "movie").erase "H", EvtOut.seeked (25 / 2))]) ∧
     (∀ x, x ∈ ((run demoTrace).members "movie").erase "H" ↔
        (x ∈ (run demoTrace).members "movie" ∧ x ≠ "H"))) :=
  ⟨⟨by decide, by decide⟩,
   c5_transport_commands (run demoTrace) "H" "movie"
     { videoSrc := JVal.jnull, playing := false, currentTime := 0, host := "H" }
     (25 / 2) (by decide) (by decide) (by decide) (by decide)⟩

/-- C6: snapshot/broadcast agreement on join — every join produces
exactly the directed `room-state` reply to the joiner followed by a
`new-host` broadcast to the room's full member list, the broadcast names
the `hostId` field of the very snapshot the joiner received, and the
joiner is among the broadcast's recipients. -/
theorem c6_join_snapshot_agreement (s : ServerState) (c room : String) :
    ∃ st : Room, (step s (Event.join c room)).1.roomState room = some st ∧
      (step s (Event.join c room)).2 =
        [([c], EvtOut.roomStateMsg st),
         ((step s (Event.join c room)).1.members room, EvtOut.newHost st.host)] ∧
      c ∈ (step s (Event.join c room)).1.members room := by
  cases hc : s.connRoom c with
  | none =>
      cases hr : s.roomState room with
      | some st =>
          refine ⟨st, ?_, ?_, ?_⟩ <;> simp [step, handleJoin, hc, hr, upd_same]
      | none =>
          refine ⟨{ videoSrc := JVal.jnull, playing := false, currentTime := 0, host := c },
            ?_, ?_, ?_⟩ <;> simp [step, handleJoin, hc, hr, upd_same]
  | some cur =>
      cases hr : s.roomState room with
      | some st =>
          refine ⟨st, ?_, ?_, ?_⟩ <;> simp [step, handleJoin, hc, hr, upd_same]
      | none =>
          refine ⟨{ videoSrc := JVal.jnull, playing := false, currentTime := 0, host := c },
            ?_, ?_, ?_⟩ <;> simp [step, handleJoin, hc, hr, upd_same]

/-- C7: empty-room teardown and fresh recreation — when the sole
remaining member of a registered room (necessarily its host, since the
host is a member) disconnects, the room's registry entry is removed, and
any subsequent join with the same room name creates a fresh entry with
`videoRef = null, playing = false, positionSeconds = 0` and `hostId`
equal to the joiner's id. -/
theorem c7_teardown_and_recreate (s : ServerState) (c room : String) (st : Room)
    (h1 : s.connRoom c = some room) (h2 : s.roomState room = some st)
    (h3 : st.host ∈ s.members room) (h4 : (s.members room).erase c = []) :
    (step s (Event.disconnect c)).1.roomState room = none ∧
    ∀ c2, (step (step s (Event.disconnect c)).1 (Event.join c2 room)).1.roomState room =
      some { videoSrc := JVal.jnull, playing := false, currentTime := 0, host := c2 } := by
  have hsingle : s.members room = [c] := by
    cases hl : s.members room with
    | nil =>
        rw [hl] at h3
        exact absurd h3 (List.not_mem_nil _)
    | cons a l =>
        rw [hl] at h4
        by_cases hac : a = c
        · subst hac
          rw [List.erase_cons_head] at h4
          rw [h4]
        · rw [List.erase_cons_tail] at h4
          · exact absurd h4 (List.cons_ne_nil a _)
          · simp [hac]
  have hhc : st.host = c := by
    rw [hsingle] at h3
    exact List.mem_singleton.mp h3
  have hdel : step s (Event.disconnect c) =
      ({ roomState := upd s.roomState room none,
         members := upd s.members room [],
         connRoom := upd s.connRoom c none }, []) := by
    simp only [step, handleDisconnect, h1, h2, hhc, h4, upd_same, if_pos]
  refine ⟨?_, fun c2 => ?_⟩
  · rw [hdel]
    exact upd_same _ _ _
  · rw [hdel]
    cases hc2 : upd s.connRoom c none c2 with
    | none =>
        simp [step, handleJoin, hc2, upd_same]
    | some cur =>
        simp [step, handleJoin, hc2, upd_same]

/-- C7 witness: "A" alone in room "a" disconnects; the registry entry for
"a" disappears, and "B" joining "a" afterwards recreates it fresh with
host "B". -/
theorem c7_teardown_and_recreate_witness :
    ((run [Event.join "A" "a"]).connRoom "A" = some "a" ∧
     (run [Event.join "A" "a"]).roomState "a" =
       some { videoSrc := JVal.jnull, playing := false, currentTime := 0, host := "A" } ∧
     "A" ∈ (run [Event.join "A" "a"]).members "a" ∧
     ((run [Event.join "A" "a"]).members "a").erase "A" = []) ∧
    (step (run [Event.join "A" "a"]) (Event.disconnect "A")).1.roomState "a" = none ∧
    (step (step (run [Event.join "A" "a"]) (Event.disconnect "A")).1
      (Event.join "B" "a")).1.roomState "a" =
      some { videoSrc := JVal.jnull, playing := false, currentTime := 0, host := "B" } :=
  ⟨⟨by decide, by decide, by decide, by decide⟩,
   (c7_teardown_and_recreate (run [Event.join "A" "a"]) "A" "a"
     { videoSrc := JVal.jnull, playing := false, currentTime := 0, host := "A" }
     (by decide) (by decide) (by decide) (by decide)).1,
   (c7_teardown_and_recreate (run [Event.join "A" "a"]) "A" "a"
     { videoSrc := JVal.jnull, playing := false, currentTime := 0, host := "A" }
     (by decide) (by decide) (by decide) (by decide)).2 "B"⟩

/-- C8: become-host seizure — a connection with a current room that has a
registry entry unconditionally (no condition on the previous host)
becomes that room's host, the room's other three fields are untouched,
`new-host` with the new id goes to the room's full member list, and no
other room's entry changes. -/
theorem c8_become_host_seizure (s : ServerState) (c room : String) (st : Room)
    (h1 : s.connRoom c = some room) (h2 : s.roomState room = some st) :
    step s (Event.becomeHost c) =
      ({ s with roomState := upd s.roomState room (some { st with host := c }) },
       [(s.members room, EvtOut.newHost c)]) ∧
    (step s (Event.becomeHost c)).1.roomState room =
      some { videoSrc := st.videoSrc, playing := st.playing,
             currentTime := st.currentTime, host := c } ∧
    (∀ r, r ≠ room → (step s (Event.becomeHost c)).1.roomState r = s.roomState r) := by
  have hstep : step s (Event.becomeHost c) =
      ({ s with roomState := upd s.roomState room (some { st with host := c }) },
       [(s.members room, EvtOut.newHost c)]) := by
    simp only [step, handleBecomeHost, h1, h2]
  refine ⟨hstep, ?_, fun r hr => ?_⟩
  · rw [hstep]
    exact upd_same _ _ _
  · rw [hstep]
    exact upd_ne _ _ _ hr

/-- C8 witness: follower "F" seizes hostship of the demonstration room
from "H"; only the host field changes and ["H", "F"] receive
`new-host("F")`. -/
theorem c8_become_host_seizure_witness :
    ((run demoTrace).connRoom "F" = some "movie" ∧
     (run demoTrace).roomState "movie" =
       some { videoSrc := JVal.jnull, playing := false, currentTime := 0, host := "H" }) ∧
    (step (run demoTrace) (Event.becomeHost "F") =
      ({ run demoTrace with
          roomState := upd (run demoTrace).roomState "movie"
            (some { videoSrc := JVal.jnull, playing := false, currentTime := 0,
                    host := "F" }) },
       [((run demoTrace).members "movie", EvtOut.newHost "F")]) ∧
     (step (run demoTrace) (Event.becomeHost "F")).1.roomState "movie" =
       some { videoSrc := JVal.jnull, playing := false, currentTime := 0, host := "F" } ∧
     (∀ r, r ≠ "movie" →
       (step (run demoTrace) (Event.becomeHost "F")).1.roomState r =
         (run demoTrace).roomState r)) :=
  ⟨⟨by decide, by decide⟩,
   c8_become_host_seizure (run demoTrace) "F" "movie"
     { videoSrc := JVal.jnull, playing := false, currentTime := 0, host := "H" }
     (by decide) (by decide)⟩

/-- C9: frame property of join on an existing room — when the target room
already has a registry entry, the join handler leaves the whole registry
(in particular all four fields of that room, host included) unchanged, and
only re-announces the existing entry: the snapshot sent to the joiner is
the unchanged entry and the `new-host` broadcast carries its `host`
field. -/
theorem c9_join_existing_frame (s : ServerState) (c room : String) (st : Room)
    (h2 : s.roomState room = some st) :
    (step s (Event.join c room)).1.roomState = s.roomState ∧
    (step s (Event.join c room)).2 =
      [([c], EvtOut.roomStateMsg st),
       ((step s (Event.join c room)).1.members room, EvtOut.newHost st.host)] := by
  cases hc : s.connRoom c with
  | none =>
      refine ⟨?_, ?_⟩ <;> simp [step, handleJoin, hc, h2]
  | some cur =>
      refine ⟨?_, ?_⟩ <;> simp [step, handleJoin, hc, h2]

/-- C9 witness: "G" joining the existing demonstration room "movie"
changes no registry entry and re-announces host "H". -/
theorem c9_join_existing_frame_witness :
    (run demoTrace).roomState "movie" =
      some { videoSrc := JVal.jnull, playing := false, currentTime := 0, host := "H" } ∧
    ((step (run demoTrace) (Event.join "G" "movie")).1.roomState =
       (run demoTrace).roomState ∧
     (step (run demoTrace) (Event.join "G" "movie")).2 =
       [(["G"], EvtOut.roomStateMsg
           { videoSrc := JVal.jnull, playing := false, currentTime := 0, host := "H" }),
        ((step (run demoTrace) (Event.join "G" "movie")).1.members "movie",
         EvtOut.newHost "H")]) :=
  ⟨by decide,
   c9_join_existing_frame (run demoTrace) "G" "movie"
     { videoSrc := JVal.jnull, playing := false, currentTime := 0, host := "H" }
     (by decide)⟩

/-- C10: no payload validation in set-video — once the host guard passes,
any payload value whatsoever (null, the empty string, a number, a
boolean, any string) is stored verbatim as the room's `videoRef` and the
identical value is broadcast in `video-set`. -/
theorem c10_set_video_verbatim (s : ServerState) (c room : String) (st : Room)
    (v : JVal)
    (h1 : s.connRoom c = some room) (h2 : s.roomState room = some st)
    (h3 : st.host = c) :
    (step s (Event.setVideo c v)).1.roomState room =
      some { st with videoSrc := v, playing := false, currentTime := 0 } ∧
    (step s (Event.setVideo c v)).2 = [(s.members room, EvtOut.videoSet v)] := by
  have hstep : step s (Event.setVideo c v) =
      ({ s with
          roomState := upd s.roomState room
            (some { st with videoSrc := v, playing := false, currentTime := 0 }) },
       [(s.members room, EvtOut.videoSet v)]) := by
    simp only [step, handleSetVideo, h1, h2, h3, if_pos]
  rw [hstep]
  exact ⟨upd_same _ _ _, rfl⟩

/-- C10 witness: host "H" stores the null payload and then a boolean
payload verbatim — neither is rejected, and each is broadcast
unchanged. -/
theorem c10_set_video_verbatim_witness :
    ((run demoTrace).connRoom "H" = some "movie") ∧
    ((step (run demoTrace) (Event.setVideo "H" JVal.jnull)).1.roomState "movie" =
       some { videoSrc := JVal.jnull, playing := false, currentTime := 0, host := "H" } ∧
     (step (run demoTrace) (Event.setVideo "H" JVal.jnull)).2 =
       [((run demoTrace).members "movie", EvtOut.videoSet JVal.jnull)]) ∧
    ((step (run demoTrace) (Event.setVideo "H" (JVal.jbool true))).1.roomState "movie" =
       some { videoSrc := JVal.jbool true, playing := false, currentTime := 0,
              host := "H" } ∧
     (step (run demoTrace) (Event.setVideo "H" (JVal.jbool true))).2 =
       [((run demoTrace).members "movie", EvtOut.videoSet (JVal.jbool true))]) :=
  ⟨by decide,
   c10_set_video_verbatim (run demoTrace) "H" "movie"
     { videoSrc := JVal.jnull, playing := false, currentTime := 0, host := "H" }
     JVal.jnull (by decide) (by decide) (by decide),
   c10_set_video_verbatim (run demoTrace) "H" "movie"
     { videoSrc := JVal.jnull, playing := false, currentTime := 0, host := "H" }
     (JVal.jbool true) (by decide) (by decide) (by decide)⟩
